import Mathlib

/-!
Shallow embedding of the NOS storage-driver multipart-upload writer
(registry/storage/driver/nos/nos_client.go) from the mmpei/distribution
repository.

The buffered multipart writer and the upload-session resolver are embedded as
pure functions over an explicit writer state.  All network interaction goes
through an `Env` of response functions (one per Object Store Client endpoint);
every writer operation additionally returns the list of network calls it
attempted, in order, so that "no network call is attempted" style properties
can be stated.

Byte strings are `List Nat`.  Go's `int`/`int64` byte counters are embedded as
`Nat`: every value flowing into them in this code is a buffer length or a sum
of buffer lengths, so they are non-negative and far below 2^63 (overflow is
unreachable for any input the driver can see).  The Go constants
`minChunkSize = 5 << 20` and the configured chunk size are grouped in
`DriverCfg` (the driver constructor enforces `chunkSize >= minChunkSize`).
-/

deriving instance DecidableEq for Except

namespace Nos

/-- Errors are the message strings carried by Go `error` values. -/
abbrev Err := String

/-- `UploadPartRet` (nos_response.go): one part as reported by the store. -/
structure UploadPartRet where
  partNumber : Nat
  etag : String
  size : Nat
deriving DecidableEq

/-- The `<Part>` entries marshalled into a CompleteMultipartUpload body:
`TranslateToUploadParts` copies only PartNumber and Etag. -/
structure UploadPartXml where
  partNumber : Nat
  etag : String
deriving DecidableEq

/-- Result of `NosClient.UploadPart` (the `UploadPart` struct). -/
structure UploadPartRes where
  partNumber : Nat
  etag : String
  size : Nat
deriving DecidableEq

/-- `Multi` (session handle): key plus the store-issued upload id. -/
structure Multi where
  key : String
  uploadId : Int
deriving DecidableEq

/-- `InitMultiUploadResult` (nos_response.go), fields used by `initMulti`. -/
structure InitMultiUploadResult where
  object : String
  uploadId : Int
deriving DecidableEq

/-- `Upload` (nos_response.go): one in-flight upload in a listing. -/
structure Upload where
  key : String
  uploadId : Int
deriving DecidableEq

/-- `ListMultiResult` (nos_response.go), fields used by `ListMulti`. -/
structure ListMultiResult where
  nextKeyMarker : String
  uploads : List Upload
  isTruncated : Bool
deriving DecidableEq

/-- `ListPartsResult` (nos_response.go), field used by the writer path. -/
structure ListPartsResult where
  parts : List UploadPartRet
deriving DecidableEq

/-- `CompleteMultipartUploadResult`, field relevant to the writer. -/
structure CompleteResult where
  etag : String
deriving DecidableEq

/-- One attempted network call (bucket omitted: it is fixed per driver). -/
inductive NetCall where
  | initMulti (key : String)
  | uploadPart (uploadId : Int) (partNumber : Nat) (content : List Nat)
  | completeMulti (uploadId : Int) (parts : List UploadPartXml)
  | abortMulti (uploadId : Int)
  | getObject (key : String)
  | getObjectRange (key : String) (range : String)
  | listMulti (keyMarker : String)
  | listParts (uploadId : Int)
deriving DecidableEq

/-- Object-store responses: one function per endpoint used by the writer.
`Except.error` is a transport failure or non-success status; for
`UploadPart` the `ok` value is the `Etag` header (possibly empty). -/
structure Env where
  initRes : String → Except Err InitMultiUploadResult
  uploadPartRes : Int → Nat → List Nat → Except Err String
  completeRes : Int → List UploadPartXml → Except Err CompleteResult
  abortRes : Int → Option Err
  getObjectRes : String → Except Err (List Nat)
  getObjectRangeRes : String → String → Except Err (List Nat)
  listMultiRes : String → Except Err ListMultiResult
  listPartsRes : Int → Except Err ListPartsResult

/-- Chunk-size policy: `minChunkSize` is the backend constant (`5 << 20` in
the source), `chunkSize` the configured part size (`>= minChunkSize`). -/
structure DriverCfg where
  chunkSize : Nat
  minChunkSize : Nat
deriving DecidableEq

/-- The Go constant `minChunkSize = 5 << 20`. -/
def goMinChunkSize : Nat := 5 <<< 20

/-- `NosClient.UploadPart`: on HTTP success the Etag header must be
non-empty; the recorded size is the request's ContentLength. -/
def uploadPartGo (env : Env) (uploadId : Int) (partNumber : Nat)
    (content : List Nat) (contentLength : Nat) : Except Err UploadPartRes :=
  match env.uploadPartRes uploadId partNumber content with
  | .error e => .error e
  | .ok etag =>
      if etag = "" then .error "No Etag Header"
      else .ok ⟨partNumber, etag, contentLength⟩

/-- `NosClient.UploadPartCopy`: fetches the source object and re-uploads it
as a part.  The source branches on `srcObjRange == ""`: the empty-range case
calls `GetObjectRange` and the non-empty-range case calls `GetObject`
(exactly as written in the Go).  The body handed to `UploadPart` is a
streamed `ReadCloser`, for which `http.NewRequest` leaves
`request.ContentLength` at 0, so the recorded part size is 0. -/
def uploadPartCopyGo (env : Env) (uploadId : Int) (partNumber : Nat)
    (srcObject srcObjRange : String) : Except Err UploadPartRes × List NetCall :=
  let fetchRes := if srcObjRange = "" then env.getObjectRangeRes srcObject srcObjRange
                  else env.getObjectRes srcObject
  let fetchCall := if srcObjRange = "" then NetCall.getObjectRange srcObject srcObjRange
                   else NetCall.getObject srcObject
  match fetchRes with
  | .error e => (.error e, [fetchCall])
  | .ok content =>
      (uploadPartGo env uploadId partNumber content 0,
       [fetchCall, NetCall.uploadPart uploadId partNumber content])

/-- `TranslateToUploadParts`: keeps PartNumber and Etag only. -/
def TranslateToUploadParts (parts : List UploadPartRet) : List UploadPartXml :=
  parts.map (fun part => ⟨part.partNumber, part.etag⟩)

/-- Go `strings.HasPrefix`, as a kernel-computable check on the strings'
character lists. -/
def hasPrefixGo (p s : String) : Bool := p.data.isPrefixOf s.data

/-- `MAX_TYR_TIMES` (nos_client.go). -/
def MAX_TYR_TIMES : Nat := 8

/-- The paging loop of `NosClient.ListMulti`: at most `i` pages; stops early
when a page reports `IsTruncated = false`; filters each page's uploads by
`strings.HasPrefix(key, prefix)`; a page error drops everything collected. -/
def listMultiLoop (env : Env) (pfx : String) :
    Nat → String → List Upload → Except Err (List Upload) × List NetCall
  | 0, _, acc => (.ok acc, [])
  | i + 1, keyMarker, acc =>
    match env.listMultiRes keyMarker with
    | .error e => (.error e, [NetCall.listMulti keyMarker])
    | .ok result =>
      let acc1 := acc ++ result.uploads.filter (fun u => hasPrefixGo pfx u.key)
      if result.isTruncated then
        let r := listMultiLoop env pfx i result.nextKeyMarker acc1
        (r.1, NetCall.listMulti keyMarker :: r.2)
      else (.ok acc1, [NetCall.listMulti keyMarker])

/-- `NosClient.ListMulti` starts the loop with `i := MAX_TYR_TIMES`. -/
def listMultiGo (env : Env) (pfx : String) (keyMarker : String) :
    Except Err (List Upload) × List NetCall :=
  listMultiLoop env pfx MAX_TYR_TIMES keyMarker []

/-- Driver-level errors: a backend error message or a typed path-not-found. -/
inductive DriverErr where
  | backend (msg : String)
  | pathNotFound (path : String)
deriving DecidableEq

/-- `parseError` (nos_client.go): a message starting with "404" becomes a
`PathNotFoundError`. -/
def parseErrorGo (path : String) (e : Err) : DriverErr :=
  if hasPrefixGo "404" e then .pathNotFound path else .backend e

/-- The `writer` struct (nos_client.go). -/
structure Writer where
  key : String
  multi : Multi
  parts : List UploadPartRet
  size : Nat
  readyPart : List Nat
  pendingPart : List Nat
  closed : Bool
  committed : Bool
  cancelled : Bool
deriving DecidableEq

/-- `driver.newWriter`: the initial size is the sum of the resumed parts'
sizes; both buffers start empty and all terminal flags are clear. -/
def newWriterGo (key : String) (multi : Multi) (parts : List UploadPartRet) : Writer :=
  { key := key, multi := multi, parts := parts,
    size := (parts.map (·.size)).sum,
    readyPart := [], pendingPart := [],
    closed := false, committed := false, cancelled := false }

/-- Result of `flushPart`: error (if any), both buffers, the parts list and
the calls attempted.  On upload failure the buffers keep the merge that was
already performed; the parts list is never mutated on failure. -/
structure FlushOut where
  err : Option Err
  readyPart : List Nat
  pendingPart : List Nat
  parts : List UploadPartRet
  calls : List NetCall
deriving DecidableEq

/-- `writer.flushPart`: no-op when both buffers are empty; a pending buffer
smaller than the chunk size is merged into ready; ready is uploaded as part
`len(parts)+1` (ContentLength = its length, via `bytes.NewReader`); on
success the buffers shift (`ready := pending; pending := nil`). -/
def flushPartGo (env : Env) (cfg : DriverCfg) (uploadId : Int)
    (parts : List UploadPartRet) (ready pending : List Nat) : FlushOut :=
  if ready.length = 0 ∧ pending.length = 0 then ⟨none, ready, pending, parts, []⟩
  else
    let merged : List Nat × List Nat :=
      if pending.length < cfg.chunkSize then (ready ++ pending, []) else (ready, pending)
    match uploadPartGo env uploadId (parts.length + 1) merged.1 merged.1.length with
    | .error e =>
        ⟨some e, merged.1, merged.2, parts,
         [NetCall.uploadPart uploadId (parts.length + 1) merged.1]⟩
    | .ok part =>
        ⟨none, merged.2, [], parts ++ [⟨part.partNumber, part.etag, part.size⟩],
         [NetCall.uploadPart uploadId (parts.length + 1) merged.1]⟩

/-- Go `io.Reader.Read(buf)` for a reader holding `content`: fills at most
`min (buf.length) (content.length)` leading bytes of `buf`, leaving the rest
of `buf` (and its length) unchanged. -/
def readInto (content buf : List Nat) : List Nat :=
  content.take (min buf.length content.length) ++ buf.drop (min buf.length content.length)

/-- Result of a writer operation: error, updated writer, attempted calls. -/
structure OpOut where
  err : Option Err
  w : Writer
  calls : List NetCall
deriving DecidableEq

/-- The trailing-undersized-part repair at the top of `writer.Write`: when
the last known part is smaller than `minChunkSize`, complete the old session
(aborting it on failure), initiate a new one, and either re-read the object
into the ready buffer (`contents.Read(w.readyPart)`, which fills at most the
buffer's current length) after dropping the parts list, or server-side-copy
the whole object as part 1. -/
def repairGo (env : Env) (cfg : DriverCfg) (w : Writer) : OpOut :=
  match w.parts.getLast? with
  | none => ⟨none, w, []⟩
  | some last =>
    if last.size < cfg.minChunkSize then
      let xmlParts := TranslateToUploadParts w.parts
      match env.completeRes w.multi.uploadId xmlParts with
      | .error e =>
          ⟨some e, w, [NetCall.completeMulti w.multi.uploadId xmlParts,
                       NetCall.abortMulti w.multi.uploadId]⟩
      | .ok _ =>
        match env.initRes w.key with
        | .error e =>
            ⟨some e, w, [NetCall.completeMulti w.multi.uploadId xmlParts,
                         NetCall.initMulti w.key]⟩
        | .ok res =>
          let calls0 := [NetCall.completeMulti w.multi.uploadId xmlParts,
                         NetCall.initMulti w.key]
          let w1 := { w with multi := ⟨res.object, res.uploadId⟩ }
          if w1.size < cfg.minChunkSize then
            match env.getObjectRes w1.key with
            | .error e => ⟨some e, w1, calls0 ++ [NetCall.getObject w1.key]⟩
            | .ok contents =>
                ⟨none, { w1 with parts := [],
                                 readyPart := readInto contents w1.readyPart },
                 calls0 ++ [NetCall.getObject w1.key]⟩
          else
            match uploadPartCopyGo env w1.multi.uploadId 1 w1.key "" with
            | (.error e, cs) => ⟨some e, w1, calls0 ++ cs⟩
            | (.ok part, cs) =>
                ⟨none, { w1 with parts := [⟨part.partNumber, part.etag, part.size⟩] },
                 calls0 ++ cs⟩
    else ⟨none, w, []⟩

/-- Result of the chunking loop inside `Write`. -/
structure LoopOut where
  readyPart : List Nat
  pendingPart : List Nat
  parts : List UploadPartRet
  n : Nat
  calls : List NetCall
  err : Option Err
deriving DecidableEq

/-- The `for len(p) > 0` loop of `writer.Write`: top up ready to the chunk
size, then top up pending; when pending becomes full, flush a part and
continue; a flush failure returns immediately with the bytes consumed so
far.  The fuel argument bounds the iterations (`none` models the case where
the Go loop would spin forever, which happens only from a state with both
buffers already full). -/
def writeLoop (env : Env) (cfg : DriverCfg) (uploadId : Int) :
    Nat → List Nat → List Nat → List Nat → List UploadPartRet → Option LoopOut
  | _, [], ready, pending, parts => some ⟨ready, pending, parts, 0, [], none⟩
  | 0, _ :: _, _, _, _ => none
  | fuel + 1, b :: bs, ready, pending, parts =>
    let p : List Nat := b :: bs
    let needR := cfg.chunkSize - ready.length
    let fillR : List Nat × List Nat × Nat :=
      if 0 < needR then
        if needR ≤ p.length then (ready ++ p.take needR, p.drop needR, needR)
        else (ready ++ p, [], p.length)
      else (ready, p, 0)
    let ready1 := fillR.1
    let p1 := fillR.2.1
    let c1 := fillR.2.2
    let needP := cfg.chunkSize - pending.length
    if 0 < needP then
      if needP ≤ p1.length then
        let pending1 := pending ++ p1.take needP
        let p2 := p1.drop needP
        let fl := flushPartGo env cfg uploadId parts ready1 pending1
        match fl.err with
        | some e =>
            some ⟨fl.readyPart, fl.pendingPart, fl.parts, c1 + needP, fl.calls, some e⟩
        | none =>
          match writeLoop env cfg uploadId fuel p2 fl.readyPart fl.pendingPart fl.parts with
          | none => none
          | some r =>
              some ⟨r.readyPart, r.pendingPart, r.parts, c1 + needP + r.n,
                    fl.calls ++ r.calls, r.err⟩
      else
        match writeLoop env cfg uploadId fuel [] ready1 (pending ++ p1) parts with
        | none => none
        | some r =>
            some ⟨r.readyPart, r.pendingPart, r.parts, c1 + p1.length + r.n, r.calls, r.err⟩
    else
      match writeLoop env cfg uploadId fuel p1 ready1 pending parts with
      | none => none
      | some r => some ⟨r.readyPart, r.pendingPart, r.parts, c1 + r.n, r.calls, r.err⟩

/-- Result of `writer.Write`: bytes consumed, error, writer, calls. -/
structure WriteOut where
  n : Nat
  err : Option Err
  w : Writer
  calls : List NetCall
deriving DecidableEq

/-- `writer.Write`: terminal-state guards, then the repair step, then the
chunking loop; the size counter grows by the bytes consumed even when a
flush fails partway through. -/
def writeGo (env : Env) (cfg : DriverCfg) (w : Writer) (p : List Nat) : Option WriteOut :=
  if w.closed then some ⟨0, some "already closed", w, []⟩
  else if w.committed then some ⟨0, some "already committed", w, []⟩
  else if w.cancelled then some ⟨0, some "already cancelled", w, []⟩
  else
    let rep := repairGo env cfg w
    match rep.err with
    | some e => some ⟨0, some e, rep.w, rep.calls⟩
    | none =>
      match writeLoop env cfg rep.w.multi.uploadId p.length p
            rep.w.readyPart rep.w.pendingPart rep.w.parts with
      | none => none
      | some r =>
          some ⟨r.n, r.err,
                { rep.w with readyPart := r.readyPart, pendingPart := r.pendingPart,
                             parts := r.parts, size := rep.w.size + r.n },
                rep.calls ++ r.calls⟩

/-- `writer.Close`: only guarded by `closed`; sets `closed` and flushes. -/
def closeGo (env : Env) (cfg : DriverCfg) (w : Writer) : OpOut :=
  if w.closed then ⟨some "already closed", w, []⟩
  else
    let w1 := { w with closed := true }
    let fl := flushPartGo env cfg w1.multi.uploadId w1.parts w1.readyPart w1.pendingPart
    ⟨fl.err, { w1 with readyPart := fl.readyPart, pendingPart := fl.pendingPart,
                       parts := fl.parts }, fl.calls⟩

/-- `writer.Cancel`: guarded by `closed` and `committed` (not by
`cancelled`); sets `cancelled` and aborts the session. -/
def cancelGo (env : Env) (w : Writer) : OpOut :=
  if w.closed then ⟨some "already closed", w, []⟩
  else if w.committed then ⟨some "already committed", w, []⟩
  else
    let w1 := { w with cancelled := true }
    ⟨env.abortRes w1.multi.uploadId, w1, [NetCall.abortMulti w1.multi.uploadId]⟩

/-- `writer.Commit`: guards, final flush, set `committed`, then Complete;
on Complete failure an Abort is attempted (its result discarded) and the
Complete error is returned. -/
def commitGo (env : Env) (cfg : DriverCfg) (w : Writer) : OpOut :=
  if w.closed then ⟨some "already closed", w, []⟩
  else if w.committed then ⟨some "already committed", w, []⟩
  else if w.cancelled then ⟨some "already cancelled", w, []⟩
  else
    let fl := flushPartGo env cfg w.multi.uploadId w.parts w.readyPart w.pendingPart
    let w1 := { w with readyPart := fl.readyPart, pendingPart := fl.pendingPart,
                       parts := fl.parts }
    match fl.err with
    | some e => ⟨some e, w1, fl.calls⟩
    | none =>
      let w2 := { w1 with committed := true }
      let xmlParts := TranslateToUploadParts w2.parts
      match env.completeRes w2.multi.uploadId xmlParts with
      | .error e =>
          ⟨some e, w2, fl.calls ++ [NetCall.completeMulti w2.multi.uploadId xmlParts,
                                    NetCall.abortMulti w2.multi.uploadId]⟩
      | .ok _ =>
          ⟨none, w2, fl.calls ++ [NetCall.completeMulti w2.multi.uploadId xmlParts]⟩

/-- The `for _, multi := range multis` loop of `driver.Writer` (append
case): skip non-matching keys, list the first matching session's parts and
build the writer from them; fall through to `PathNotFoundError`. -/
def writerAppendFind (env : Env) (key : String) :
    List Upload → Except DriverErr Writer × List NetCall
  | [] => (.error (.pathNotFound key), [])
  | m :: rest =>
    if key ≠ m.key then writerAppendFind env key rest
    else
      match env.listPartsRes m.uploadId with
      | .error e => (.error (parseErrorGo key e), [NetCall.listParts m.uploadId])
      | .ok pr =>
          (.ok (newWriterGo key ⟨m.key, m.uploadId⟩ pr.parts),
           [NetCall.listParts m.uploadId])

/-- `driver.Writer` with `append = true`: list all in-flight uploads with
the key as prefix (the store cannot filter by exact key), then scan for an
exact key match.  Keys are already `nosPath`-normalized. -/
def writerAppendGo (env : Env) (key : String) :
    Except DriverErr Writer × List NetCall :=
  match listMultiGo env key "" with
  | (.error e, cs) => (.error (parseErrorGo key e), cs)
  | (.ok multis, cs) =>
    let r := writerAppendFind env key multis
    (r.1, cs ++ r.2)

/-- Modelled from the spec (§4.1, refinement reference only): enumerate the
in-flight-uploads listing page by page until a page reports no further
results, with explicit fuel (`none` when the fuel runs out or a page
fails). -/
def listAllUploadsSpec (env : Env) : Nat → String → List Upload → Option (List Upload)
  | 0, _, _ => none
  | i + 1, marker, acc =>
    match env.listMultiRes marker with
    | .error _ => none
    | .ok result =>
      let acc1 := acc ++ result.uploads
      if result.isTruncated then listAllUploadsSpec env i result.nextKeyMarker acc1
      else some acc1

/-- A sequence of `Write` calls; collects each call's consumed count and
keeps going after errors (as a Go caller may); `none` only when some call's
loop would diverge. -/
def writeSeq (env : Env) (cfg : DriverCfg) : Writer → List (List Nat) → Option (List Nat × Writer)
  | w, [] => some ([], w)
  | w, p :: ps =>
    match writeGo env cfg w p with
    | none => none
    | some out =>
      match writeSeq env cfg out.w ps with
      | none => none
      | some (ns, w') => some (out.n :: ns, w')

/-- Part sizes submitted by `Commit` after a fresh session (`append=false`)
followed by the given sequence of `Write` calls. -/
def commitSizesAfter (env : Env) (cfg : DriverCfg) (key : String) (uploadId : Int)
    (ps : List (List Nat)) : Option (List Nat) :=
  match writeSeq env cfg (newWriterGo key ⟨key, uploadId⟩ []) ps with
  | none => none
  | some (_, w) => some (((commitGo env cfg w).w).parts.map (·.size))

/-- One caller-visible writer operation. -/
inductive WOp where
  | write (p : List Nat)
  | close
  | cancel
  | commit
deriving DecidableEq

/-- The writer state after one operation (a diverging `Write` keeps the
state; it never returns in Go). -/
def runOp (env : Env) (cfg : DriverCfg) (w : Writer) : WOp → Writer
  | .write p =>
    match writeGo env cfg w p with
    | some out => out.w
    | none => w
  | .close => (closeGo env cfg w).w
  | .cancel => (cancelGo env w).w
  | .commit => (commitGo env cfg w).w

/-- The writer state after a sequence of operations. -/
def runOps (env : Env) (cfg : DriverCfg) (w : Writer) (ops : List WOp) : Writer :=
  ops.foldl (runOp env cfg) w

end Nos

namespace Nos

/-! ### Concrete configurations, environments and writers

Used by the concrete theorems below and to discharge hypotheses in the
witness theorems.  `cfg10` is the configuration of spec Scenarios A and D
(`chunkSize = 10`, `minChunkSize = 10`). -/

def cfg10 : DriverCfg := ⟨10, 10⟩

/-- A healthy backend: every call succeeds. -/
def envOk : Env :=
  { initRes := fun k => .ok ⟨k, 9⟩,
    uploadPartRes := fun _ _ _ => .ok "e",
    completeRes := fun _ _ => .ok ⟨"E"⟩,
    abortRes := fun _ => none,
    getObjectRes := fun _ => .ok [],
    getObjectRangeRes := fun _ _ => .ok [],
    listMultiRes := fun _ => .ok ⟨"", [], false⟩,
    listPartsRes := fun _ => .ok ⟨[]⟩ }

/-- A fresh writer for key "k" on a healthy backend. -/
def w0 : Writer := newWriterGo "k" ⟨"k", 1⟩ []

/-- Backend for the resume-repair scenario: the stored object "k" holds the
3 bytes `[9, 9, 9]`; a new session gets upload id 6. -/
def envC4 : Env :=
  { envOk with getObjectRes := fun _ => .ok [9, 9, 9], initRes := fun k => .ok ⟨k, 6⟩ }

/-- A writer resumed from a session whose only part has size 3 (< 10). -/
def wOldSmall : Writer := newWriterGo "k" ⟨"k", 5⟩ [⟨1, "e1", 3⟩]

/-- Backend for the part-copy scenario: object "src" is `[1,2,3,4,5]`; the
range "bytes=0-1" of it is `[1,2]`. -/
def envC9 : Env :=
  { envOk with
    getObjectRes := fun k => if k = "src" then .ok [1, 2, 3, 4, 5] else .error "404 Not Found",
    getObjectRangeRes := fun k r =>
      if k = "src" ∧ r = "bytes=0-1" then .ok [1, 2] else .error "404 Not Found" }

/-- Backend whose part listing for upload 7 returns parts out of order. -/
def envC7 : Env :=
  { envOk with
    listMultiRes := fun _ => .ok ⟨"", [⟨"k", 7⟩], false⟩,
    listPartsRes := fun i =>
      if i = 7 then .ok ⟨[⟨2, "e2", 10⟩, ⟨1, "e1", 10⟩]⟩ else .error "404 Not Found" }

/-- Marker successor for the 9-page listing scenario. -/
def c6next (m : String) : String :=
  if m = "" then "m1" else if m = "m1" then "m2" else if m = "m2" then "m3"
  else if m = "m3" then "m4" else if m = "m4" then "m5" else if m = "m5" then "m6"
  else if m = "m6" then "m7" else if m = "m7" then "m8" else "m9"

/-- Backend whose in-flight-upload listing is truncated for 8 pages and
only reports the matching upload (key "k") on the 9th page. -/
def envC6 : Env :=
  { envOk with
    listMultiRes := fun m =>
      if m = "m8" then .ok ⟨"", [⟨"k", 42⟩], false⟩ else .ok ⟨c6next m, [], true⟩ }

end Nos

namespace Nos

/-! ### Concrete theorems (counterexamples and code evaluations) -/

/-- C1 counterexample: on a fresh writer, write 3 bytes, `Cancel`
(succeeds), then `Close`: `Close` does not fail with a state error, it sets
`closed` while `cancelled` is already set (two terminal flags true at once),
and it performs a network call (uploading the 3 buffered bytes as a part).
This refutes both halves of the claim: terminal flags are not mutually
exclusive, and an operation after a terminal flag neither fails nor stays
off the network. -/
theorem cancel_then_close_not_rejected :
    (writeGo envOk cfg10 w0 [1, 2, 3]).map (fun o =>
      let c := cancelGo envOk o.w
      let cl := closeGo envOk cfg10 c.w
      (c.err, cl.err, cl.w.closed, cl.w.cancelled, cl.calls)) =
    some (none, none, true, true, [NetCall.uploadPart 1 1 [1, 2, 3]]) := by
  decide

/-- C2 counterexample: Scenario A (chunkSize = minChunkSize = 10, one
25-byte `Write`, then `Commit`) does not yield part sizes `[10, 10, 5]`:
`Commit`'s final flush merges the 5-byte pending buffer into the 10-byte
ready buffer before uploading. -/
theorem scenarioA_not_ten_ten_five :
    commitSizesAfter envOk cfg10 "k" 1 [List.replicate 25 0] ≠ some [10, 10, 5] := by
  decide

/-- C2 (amended): Scenario A produces the part-size sequence `[10, 15]`:
the first flush (inside `Write`) uploads 10 bytes, and `Commit`'s final
flush merges the 10-byte ready buffer with the 5-byte pending buffer into a
single 15-byte part.  The 25-byte `Write` itself succeeds and consumes all
25 bytes. -/
theorem scenarioA_parts_ten_fifteen :
    commitSizesAfter envOk cfg10 "k" 1 [List.replicate 25 0] = some [10, 15] ∧
    (writeGo envOk cfg10 (newWriterGo "k" ⟨"k", 1⟩ []) (List.replicate 25 0)).map
        (fun o => (o.n, o.err)) = some (25, none) := by
  decide

/-- C4: the repair path for a resumed session with one 3-byte part (total
size 3 < minChunkSize 10) completes the old session, initiates a new one
and fetches the object (the `getObject` call is attempted), but
`contents.Read(w.readyPart)` reads into the writer's zero-length ready
buffer, so the 3 fetched bytes `[9,9,9]` are dropped: after the first
4-byte `Write`, `readyPart` holds only the 4 new bytes and the parts list
is empty — the object's existing content never reaches the new session's
buffers, contradicting the spec's "keep it buffered in memory as the new
ready buffer". -/
theorem repair_refetch_drops_content :
    writeGo envC4 cfg10 wOldSmall [7, 7, 7, 7] =
      some ⟨4, none,
        { key := "k", multi := ⟨"k", 6⟩, parts := [], size := 7,
          readyPart := [7, 7, 7, 7], pendingPart := [],
          closed := false, committed := false, cancelled := false },
        [NetCall.completeMulti 5 [⟨1, "e1"⟩], NetCall.initMulti "k",
         NetCall.getObject "k"]⟩ := by
  decide

/-- C9: `UploadPartCopy`'s branches on the source range are swapped.  With
source object "src" = `[1,2,3,4,5]` and range "bytes=0-1" = `[1,2]`, the
non-empty-range call fetches the WHOLE object via `GetObject` and uploads
all 5 bytes (recorded size 0, since the streamed body carries no
ContentLength); the empty-range call instead hits `GetObjectRange` with an
empty Range header.  The claim (and the function's documented purpose)
requires the opposite pairing. -/
theorem uploadPartCopy_range_branches_swapped :
    uploadPartCopyGo envC9 5 1 "src" "bytes=0-1" =
      (.ok ⟨1, "e", 0⟩, [NetCall.getObject "src", NetCall.uploadPart 5 1 [1, 2, 3, 4, 5]]) ∧
    uploadPartCopyGo envC9 5 1 "src" "" =
      (.error "404 Not Found", [NetCall.getObjectRange "src" ""]) := by
  decide

/-- C7 counterexample: when the transport returns the parts of the matching
session as `[part 2, part 1]`, the writer receives them in exactly that
order — the resolver performs no sorting, so the resulting part-number list
`[2, 1]` is not ascending. -/
theorem append_parts_out_of_order :
    (writerAppendGo envC7 "k").1.map (fun w => w.parts.map (·.partNumber)) =
      .ok [2, 1] ∧
    ¬ List.Sorted (· ≤ ·) ([2, 1] : List Nat) := by
  refine ⟨by decide, by decide⟩

/-- C6 counterexample: with a listing that stays truncated for 8 pages and
reports the only matching upload (key "k") on the 9th page, opening with
append gives up after exactly `MAX_TYR_TIMES = 8` pages and fails with
path-not-found, even though paging until the listing reports no further
results (the spec-modelled enumeration, fuel 9) does find the upload. -/
theorem append_gives_up_after_eight_pages :
    (writerAppendGo envC6 "k").1 = .error (.pathNotFound "k") ∧
    (writerAppendGo envC6 "k").2.length = 8 ∧
    listAllUploadsSpec envC6 9 "" [] = some [⟨"k", 42⟩] := by
  refine ⟨by decide, by decide, by decide⟩

end Nos

namespace Nos

/-! ### Helper lemmas -/

/-- The repair step never touches the terminal flags, the size counter or
the writer's key. -/
theorem repairGo_preserves (env : Env) (cfg : DriverCfg) (w : Writer) :
    (repairGo env cfg w).w.closed = w.closed ∧
    (repairGo env cfg w).w.committed = w.committed ∧
    (repairGo env cfg w).w.cancelled = w.cancelled ∧
    (repairGo env cfg w).w.size = w.size ∧
    (repairGo env cfg w).w.key = w.key := by
  unfold repairGo
  cases hl : w.parts.getLast? with
  | none => simp
  | some last =>
    by_cases hsz : last.size < cfg.minChunkSize
    · simp only [hsz, if_true]
      cases hc : env.completeRes w.multi.uploadId (TranslateToUploadParts w.parts) with
      | error e => simp
      | ok r =>
        cases hi : env.initRes w.key with
        | error e => simp
        | ok res =>
          by_cases hsz2 : w.size < cfg.minChunkSize
          · simp only [hsz2, if_true]
            cases hg : env.getObjectRes w.key with
            | error e => simp
            | ok contents => simp
          · simp only [hsz2, if_false]
            cases hcp : uploadPartCopyGo env res.uploadId 1 w.key "" with
            | mk fst snd =>
              cases fst with
              | error e => simp
              | ok part => simp
    · simp [hsz]

/-- `Write` never touches the terminal flags. -/
theorem writeGo_flags (env : Env) (cfg : DriverCfg) (w : Writer) (p : List Nat)
    (out : WriteOut) (h : writeGo env cfg w p = some out) :
    out.w.closed = w.closed ∧ out.w.committed = w.committed ∧
    out.w.cancelled = w.cancelled := by
  have hrep := repairGo_preserves env cfg w
  simp only [writeGo] at h
  split at h
  · cases h; exact ⟨rfl, rfl, rfl⟩
  · split at h
    · cases h; exact ⟨rfl, rfl, rfl⟩
    · split at h
      · cases h; exact ⟨rfl, rfl, rfl⟩
      · split at h
        · cases h; exact ⟨hrep.1, hrep.2.1, hrep.2.2.1⟩
        · split at h
          · exact absurd h (by simp)
          · cases h
            exact ⟨hrep.1, hrep.2.1, hrep.2.2.1⟩

/-- `Write` adds exactly the consumed byte count to the size counter, also
on the error paths. -/
theorem writeGo_size (env : Env) (cfg : DriverCfg) (w : Writer) (p : List Nat)
    (out : WriteOut) (h : writeGo env cfg w p = some out) :
    out.w.size = w.size + out.n := by
  have hrep := (repairGo_preserves env cfg w).2.2.2.1
  simp only [writeGo] at h
  split at h
  · cases h; simp
  · split at h
    · cases h; simp
    · split at h
      · cases h; simp
      · split at h
        · cases h; simpa using hrep
        · split at h
          · exact absurd h (by simp)
          · cases h
            simp only
            rw [hrep]

end Nos

namespace Nos

/-- Size accounting over any sequence of writes, from any starting state. -/
theorem writeSeq_size (env : Env) (cfg : DriverCfg) :
    ∀ (ps : List (List Nat)) (w : Writer) (ns : List Nat) (w' : Writer),
      writeSeq env cfg w ps = some (ns, w') → w'.size = w.size + ns.sum := by
  intro ps
  induction ps with
  | nil =>
    intro w ns w' h
    simp only [writeSeq] at h
    cases h
    simp
  | cons p ps ih =>
    intro w ns w' h
    simp only [writeSeq] at h
    split at h
    · cases h
    · rename_i out hw
      split at h
      · cases h
      · rename_i r hs
        cases h
        have h1 := writeGo_size env cfg w p out hw
        have h2 := ih out.w _ _ hs
        simp only [List.sum_cons]
        omega

/-- C8: `Size()` after a sequence of `Write` calls equals the resumed
initial size (the sum of the resumed parts' sizes) plus the byte counts the
individual calls reported as consumed — including calls that returned an
error after a failed flush, whose consumed bytes are still added. -/
theorem size_accounting (env : Env) (cfg : DriverCfg) (key : String) (multi : Multi)
    (parts0 : List UploadPartRet) (ps : List (List Nat)) (ns : List Nat) (w' : Writer)
    (h : writeSeq env cfg (newWriterGo key multi parts0) ps = some (ns, w')) :
    w'.size = (parts0.map (·.size)).sum + ns.sum :=
  writeSeq_size env cfg ps (newWriterGo key multi parts0) ns w' h

/-- A backend whose part uploads always fail. -/
def envBoom : Env := { envOk with uploadPartRes := fun _ _ _ => .error "boom" }

/-- A writer resumed with two parts of sizes 3 and 4 (initial size 7). -/
def wResume : Writer := newWriterGo "k" ⟨"k", 1⟩ [⟨1, "e1", 3⟩, ⟨2, "e2", 4⟩]

/-- Writer state after the two writes of the size-accounting witness. -/
def wResumeAfter : Writer :=
  { key := "k", multi := ⟨"k", 1⟩,
    parts := [⟨1, "e1", 3⟩, ⟨2, "e2", 4⟩], size := 17,
    readyPart := List.replicate 5 0, pendingPart := List.replicate 5 1,
    closed := false, committed := false, cancelled := false }

/-- Witness for `size_accounting`: chunk size 5, resumed size 7; a 5-byte
write (fully buffered) and a 6-byte write that fails its flush after
consuming 5 bytes leave `Size() = 7 + 5 + 5 = 17`. -/
theorem size_accounting_witness :
    writeSeq envBoom ⟨5, 3⟩ wResume [List.replicate 5 0, List.replicate 6 1] =
      some ([5, 5], wResumeAfter) ∧
    wResumeAfter.size =
      (([⟨1, "e1", 3⟩, ⟨2, "e2", 4⟩] : List UploadPartRet).map (·.size)).sum +
        ([5, 5] : List Nat).sum := by
  have h : writeSeq envBoom ⟨5, 3⟩ wResume [List.replicate 5 0, List.replicate 6 1] =
      some ([5, 5], wResumeAfter) := by decide
  exact ⟨h, size_accounting envBoom ⟨5, 3⟩ "k" ⟨"k", 1⟩ [⟨1, "e1", 3⟩, ⟨2, "e2", 4⟩]
    [List.replicate 5 0, List.replicate 6 1] [5, 5] wResumeAfter h⟩

end Nos

namespace Nos

/-- C5: when the flush inside `Commit` succeeds but the Complete call fails
with error `e`, `Commit` returns `e` itself (for every environment,
including any behavior of the Abort endpoint — the Abort result is
discarded, so an Abort failure can never replace the Complete error), and
the call trace shows the Abort attempted immediately after the Complete. -/
theorem commit_complete_failure_aborts_and_propagates
    (env : Env) (cfg : DriverCfg) (w : Writer) (e : Err)
    (h1 : w.closed = false) (h2 : w.committed = false) (h3 : w.cancelled = false)
    (hfl : (flushPartGo env cfg w.multi.uploadId w.parts w.readyPart w.pendingPart).err = none)
    (hcm : ∀ ps, env.completeRes w.multi.uploadId ps = .error e) :
    (commitGo env cfg w).err = some e ∧
    (commitGo env cfg w).calls =
      (flushPartGo env cfg w.multi.uploadId w.parts w.readyPart w.pendingPart).calls ++
        [NetCall.completeMulti w.multi.uploadId
           (TranslateToUploadParts
             (flushPartGo env cfg w.multi.uploadId w.parts w.readyPart w.pendingPart).parts),
         NetCall.abortMulti w.multi.uploadId] := by
  simp [commitGo, h1, h2, h3, hfl, hcm]

/-- A backend whose Complete always fails and whose Abort also fails (the
Abort failure must not mask the Complete error). -/
def envCompleteFail : Env :=
  { envOk with completeRes := fun _ _ => .error "complete failed",
               abortRes := fun _ => some "abort also failed" }

/-- A writer holding 3 buffered bytes, about to commit. -/
def wBuffered : Writer :=
  { key := "k", multi := ⟨"k", 1⟩, parts := [], size := 3,
    readyPart := [1, 2, 3], pendingPart := [],
    closed := false, committed := false, cancelled := false }

/-- Witness for `commit_complete_failure_aborts_and_propagates` at
`wBuffered` on `envCompleteFail`. -/
theorem commit_complete_failure_aborts_and_propagates_witness :
    (commitGo envCompleteFail cfg10 wBuffered).err = some "complete failed" ∧
    (commitGo envCompleteFail cfg10 wBuffered).calls =
      (flushPartGo envCompleteFail cfg10 wBuffered.multi.uploadId wBuffered.parts
          wBuffered.readyPart wBuffered.pendingPart).calls ++
        [NetCall.completeMulti wBuffered.multi.uploadId
           (TranslateToUploadParts
             (flushPartGo envCompleteFail cfg10 wBuffered.multi.uploadId wBuffered.parts
                wBuffered.readyPart wBuffered.pendingPart).parts),
         NetCall.abortMulti wBuffered.multi.uploadId] :=
  commit_complete_failure_aborts_and_propagates envCompleteFail cfg10 wBuffered
    "complete failed" rfl rfl rfl (by decide) (fun ps => rfl)

/-- C10: when `Commit`'s Complete call fails, the writer is still marked
`committed`, and every subsequent `Write`, `Commit` or `Cancel` on it fails
with "already committed" without touching the network or the state. -/
theorem commit_failure_leaves_committed
    (env : Env) (cfg : DriverCfg) (w : Writer) (e : Err)
    (h1 : w.closed = false) (h2 : w.committed = false) (h3 : w.cancelled = false)
    (hfl : (flushPartGo env cfg w.multi.uploadId w.parts w.readyPart w.pendingPart).err = none)
    (hcm : ∀ ps, env.completeRes w.multi.uploadId ps = .error e) :
    (commitGo env cfg w).err = some e ∧
    (commitGo env cfg w).w.committed = true ∧
    (∀ p, writeGo env cfg (commitGo env cfg w).w p =
        some ⟨0, some "already committed", (commitGo env cfg w).w, []⟩) ∧
    commitGo env cfg (commitGo env cfg w).w =
      ⟨some "already committed", (commitGo env cfg w).w, []⟩ ∧
    cancelGo env (commitGo env cfg w).w =
      ⟨some "already committed", (commitGo env cfg w).w, []⟩ := by
  have hw : (commitGo env cfg w).w =
      { w with
        readyPart := (flushPartGo env cfg w.multi.uploadId w.parts w.readyPart w.pendingPart).readyPart,
        pendingPart := (flushPartGo env cfg w.multi.uploadId w.parts w.readyPart w.pendingPart).pendingPart,
        parts := (flushPartGo env cfg w.multi.uploadId w.parts w.readyPart w.pendingPart).parts,
        committed := true } := by
    simp [commitGo, h1, h2, h3, hfl, hcm]
  refine ⟨?_, ?_, ?_, ?_, ?_⟩
  · simp [commitGo, h1, h2, h3, hfl, hcm]
  · rw [hw]
  · intro p
    rw [hw]
    simp [writeGo, h1]
  · rw [hw]
    simp [commitGo, h1]
  · rw [hw]
    simp [cancelGo, h1]

/-- Witness for `commit_failure_leaves_committed` at `wBuffered` on
`envCompleteFail`. -/
theorem commit_failure_leaves_committed_witness :
    (commitGo envCompleteFail cfg10 wBuffered).err = some "complete failed" ∧
    (commitGo envCompleteFail cfg10 wBuffered).w.committed = true ∧
    writeGo envCompleteFail cfg10 (commitGo envCompleteFail cfg10 wBuffered).w [7] =
      some ⟨0, some "already committed", (commitGo envCompleteFail cfg10 wBuffered).w, []⟩ ∧
    cancelGo envCompleteFail (commitGo envCompleteFail cfg10 wBuffered).w =
      ⟨some "already committed", (commitGo envCompleteFail cfg10 wBuffered).w, []⟩ := by
  have h := commit_failure_leaves_committed envCompleteFail cfg10 wBuffered
    "complete failed" rfl rfl rfl (by decide) (fun ps => rfl)
  exact ⟨h.1, h.2.1, h.2.2.1 [7], h.2.2.2.2⟩

end Nos

namespace Nos

/-- `Close` keeps the committed and cancelled flags. -/
theorem closeGo_keeps_cc (env : Env) (cfg : DriverCfg) (w : Writer) :
    (closeGo env cfg w).w.committed = w.committed ∧
    (closeGo env cfg w).w.cancelled = w.cancelled := by
  unfold closeGo
  split
  · exact ⟨rfl, rfl⟩
  · exact ⟨rfl, rfl⟩

/-- No single operation can make `committed` and `cancelled` both true. -/
theorem runOp_no_both (env : Env) (cfg : DriverCfg) (w : Writer) (op : WOp)
    (h : ¬(w.committed = true ∧ w.cancelled = true)) :
    ¬((runOp env cfg w op).committed = true ∧ (runOp env cfg w op).cancelled = true) := by
  cases op with
  | write p =>
    simp only [runOp]
    cases hw : writeGo env cfg w p with
    | none => exact h
    | some out =>
      show ¬(out.w.committed = true ∧ out.w.cancelled = true)
      have hf := writeGo_flags env cfg w p out hw
      rw [hf.2.1, hf.2.2]
      exact h
  | close =>
    simp only [runOp]
    have hc := closeGo_keeps_cc env cfg w
    rw [hc.1, hc.2]
    exact h
  | cancel =>
    simp only [runOp, cancelGo]
    split
    · exact h
    · split
      · exact h
      · rename_i hcl hcm
        intro hx
        exact hcm (by simpa using hx.1)
  | commit =>
    simp only [runOp, commitGo]
    split
    · exact h
    · split
      · exact h
      · split
        · exact h
        · rename_i hcl hcm hca
          split
          · intro hx
            exact h ⟨by simpa using hx.1, by simpa using hx.2⟩
          · split
            · intro hx
              exact hca (by simpa using hx.2)
            · intro hx
              exact hca (by simpa using hx.2)

/-- C1 (amended): the terminal-state guards as the code implements them.
`Write` and `Commit` fail with a state error and attempt no network call
once any of `closed`, `committed`, `cancelled` is set; `Cancel` is guarded
only by `closed` and `committed` (a second `Cancel` repeats the Abort);
`Close` is guarded only by `closed` (it may follow `Commit` or `Cancel`,
setting `closed` alongside the other flag and still flushing).  What does
remain mutually exclusive under every operation sequence is the pair
`{committed, cancelled}`. -/
theorem writer_terminal_guards_and_exclusivity (env : Env) (cfg : DriverCfg) :
    (∀ w p, w.closed = true ∨ w.committed = true ∨ w.cancelled = true →
        ∃ e, writeGo env cfg w p = some ⟨0, some e, w, []⟩) ∧
    (∀ w, w.closed = true ∨ w.committed = true ∨ w.cancelled = true →
        ∃ e, commitGo env cfg w = ⟨some e, w, []⟩) ∧
    (∀ w, w.closed = true ∨ w.committed = true →
        ∃ e, cancelGo env w = ⟨some e, w, []⟩) ∧
    (∀ w, w.closed = true → closeGo env cfg w = ⟨some "already closed", w, []⟩) ∧
    (∀ w0 ops, ¬(w0.committed = true ∧ w0.cancelled = true) →
        ¬((runOps env cfg w0 ops).committed = true ∧
          (runOps env cfg w0 ops).cancelled = true)) := by
  refine ⟨?_, ?_, ?_, ?_, ?_⟩
  · intro w p h
    rcases h with h | h | h
    · exact ⟨"already closed", by simp [writeGo, h]⟩
    · by_cases hc : w.closed = true
      · exact ⟨"already closed", by simp [writeGo, hc]⟩
      · exact ⟨"already committed", by simp [writeGo, hc, h]⟩
    · by_cases hc : w.closed = true
      · exact ⟨"already closed", by simp [writeGo, hc]⟩
      · by_cases hm : w.committed = true
        · exact ⟨"already committed", by simp [writeGo, hc, hm]⟩
        · exact ⟨"already cancelled", by simp [writeGo, hc, hm, h]⟩
  · intro w h
    rcases h with h | h | h
    · exact ⟨"already closed", by simp [commitGo, h]⟩
    · by_cases hc : w.closed = true
      · exact ⟨"already closed", by simp [commitGo, hc]⟩
      · exact ⟨"already committed", by simp [commitGo, hc, h]⟩
    · by_cases hc : w.closed = true
      · exact ⟨"already closed", by simp [commitGo, hc]⟩
      · by_cases hm : w.committed = true
        · exact ⟨"already committed", by simp [commitGo, hc, hm]⟩
        · exact ⟨"already cancelled", by simp [commitGo, hc, hm, h]⟩
  · intro w h
    rcases h with h | h
    · exact ⟨"already closed", by simp [cancelGo, h]⟩
    · by_cases hc : w.closed = true
      · exact ⟨"already closed", by simp [cancelGo, hc]⟩
      · exact ⟨"already committed", by simp [cancelGo, hc, h]⟩
  · intro w h
    simp [closeGo, h]
  · intro w0 ops
    induction ops generalizing w0 with
    | nil => exact fun h => h
    | cons op ops ih =>
      intro h
      exact ih (runOp env cfg w0 op) (runOp_no_both env cfg w0 op h)

/-- A writer in the closed terminal state. -/
def wClosed : Writer := { w0 with closed := true }

/-- Witness for `writer_terminal_guards_and_exclusivity`: a closed writer
rejects `Write` without consuming bytes or calling the network, and the
sequence write-cancel-close never sets `committed` and `cancelled`
together. -/
theorem writer_terminal_guards_and_exclusivity_witness :
    (∃ e, writeGo envOk cfg10 wClosed [7] = some ⟨0, some e, wClosed, []⟩) ∧
    ¬((runOps envOk cfg10 w0 [WOp.write [1, 2, 3], WOp.cancel, WOp.close]).committed = true ∧
      (runOps envOk cfg10 w0 [WOp.write [1, 2, 3], WOp.cancel, WOp.close]).cancelled = true) :=
  ⟨(writer_terminal_guards_and_exclusivity envOk cfg10).1 wClosed [7] (Or.inl rfl),
   (writer_terminal_guards_and_exclusivity envOk cfg10).2.2.2.2 w0
     [WOp.write [1, 2, 3], WOp.cancel, WOp.close] (by decide)⟩

end Nos

namespace Nos

/-- If no listed upload matches the key exactly, the resolver's scan ends
in path-not-found without any further network call. -/
theorem writerAppendFind_none (env : Env) (key : String) :
    ∀ ups : List Upload, (∀ u ∈ ups, u.key ≠ key) →
      writerAppendFind env key ups = (.error (.pathNotFound key), []) := by
  intro ups
  induction ups with
  | nil => intro _; rfl
  | cons m rest ih =>
    intro h
    simp only [writerAppendFind]
    rw [if_pos (Ne.symm (h m (List.mem_cons_self m rest)))]
    exact ih (fun u hu => h u (List.mem_cons_of_mem m hu))

/-- The `ListMulti` paging loop fetches at most `i` pages. -/
theorem listMultiLoop_calls_le (env : Env) (pfx : String) :
    ∀ (i : Nat) (marker : String) (acc : List Upload),
      (listMultiLoop env pfx i marker acc).2.length ≤ i := by
  intro i
  induction i with
  | zero => intro marker acc; simp [listMultiLoop]
  | succ i ih =>
    intro marker acc
    simp only [listMultiLoop]
    cases env.listMultiRes marker with
    | error e => simp
    | ok result =>
      by_cases ht : result.isTruncated = true
      · simp only [ht, if_true]
        simpa using Nat.succ_le_succ (ih result.nextKeyMarker _)
      · simp [ht]

/-- The `ListMulti` paging loop stops at the first page that reports no
further results. -/
theorem listMultiLoop_stops (env : Env) (marker : String) (r : ListMultiResult)
    (hr : env.listMultiRes marker = .ok r) (ht : r.isTruncated = false) :
    ∀ pfx acc i, listMultiLoop env pfx (i + 1) marker acc =
      (.ok (acc ++ r.uploads.filter (fun u => hasPrefixGo pfx u.key)),
       [NetCall.listMulti marker]) := by
  intro pfx acc i
  simp [listMultiLoop, hr, ht]

/-- C6 (amended): opening with `append = true` pages the in-flight-uploads
listing until a page reports no further results OR until `MAX_TYR_TIMES = 8`
pages have been fetched, whichever comes first; uploads are filtered
client-side (prefix filter in `ListMulti`, exact key equality in the
resolver scan); when no enumerated upload matches the key exactly, the open
fails with a path-not-found condition. -/
theorem append_paging_capped_and_notfound (env : Env) (key : String) :
    (∀ ups calls, listMultiGo env key "" = (.ok ups, calls) →
       (∀ u ∈ ups, u.key ≠ key) →
       writerAppendGo env key = (.error (.pathNotFound key), calls)) ∧
    (∀ pfx marker, (listMultiGo env pfx marker).2.length ≤ MAX_TYR_TIMES) ∧
    (∀ marker r, env.listMultiRes marker = .ok r → r.isTruncated = false →
       ∀ pfx acc i, listMultiLoop env pfx (i + 1) marker acc =
         (.ok (acc ++ r.uploads.filter (fun u => hasPrefixGo pfx u.key)),
          [NetCall.listMulti marker])) := by
  refine ⟨?_, ?_, ?_⟩
  · intro ups calls hl hno
    unfold writerAppendGo
    rw [hl]
    simp [writerAppendFind_none env key ups hno]
  · intro pfx marker
    exact listMultiLoop_calls_le env pfx MAX_TYR_TIMES marker []
  · intro marker r hr ht
    exact listMultiLoop_stops env marker r hr ht

/-- Witness for `append_paging_capped_and_notfound` on the 9-page backend:
no upload is enumerated within the 8-page cap, so the open fails with
path-not-found after the 8 listing calls. -/
theorem append_paging_capped_and_notfound_witness :
    writerAppendGo envC6 "k" =
      (.error (.pathNotFound "k"),
       [NetCall.listMulti "", NetCall.listMulti "m1", NetCall.listMulti "m2",
        NetCall.listMulti "m3", NetCall.listMulti "m4", NetCall.listMulti "m5",
        NetCall.listMulti "m6", NetCall.listMulti "m7"]) ∧
    (listMultiGo envC6 "k" "").2.length ≤ MAX_TYR_TIMES :=
  ⟨(append_paging_capped_and_notfound envC6 "k").1 []
      [NetCall.listMulti "", NetCall.listMulti "m1", NetCall.listMulti "m2",
       NetCall.listMulti "m3", NetCall.listMulti "m4", NetCall.listMulti "m5",
       NetCall.listMulti "m6", NetCall.listMulti "m7"]
      (by decide) (by simp),
   (append_paging_capped_and_notfound envC6 "k").2.1 "k" ""⟩

/-- The resolver scan returns the first exact-key match, with the parts
exactly as the transport produced them. -/
theorem writerAppendFind_first (env : Env) (key : String) (m : Upload)
    (pr : ListPartsResult) (hm : m.key = key)
    (hp : env.listPartsRes m.uploadId = .ok pr) :
    ∀ ups1 : List Upload, (∀ u ∈ ups1, u.key ≠ key) → ∀ ups2,
      writerAppendFind env key (ups1 ++ m :: ups2) =
        (.ok (newWriterGo key ⟨m.key, m.uploadId⟩ pr.parts),
         [NetCall.listParts m.uploadId]) := by
  intro ups1
  induction ups1 with
  | nil =>
    intro _ ups2
    simp only [List.nil_append, writerAppendFind]
    rw [if_neg (fun hne => hne hm.symm)]
    rw [hp]
  | cons u1 rest ih =>
    intro h ups2
    simp only [List.cons_append, writerAppendFind]
    rw [if_pos (Ne.symm (h u1 (List.mem_cons_self u1 rest)))]
    exact ih (fun u hu => h u (List.mem_cons_of_mem u1 hu)) ups2

/-- C7 (amended): when the enumeration contains an exact-key match, the
writer is built from the parts of the FIRST matching session exactly in the
order the single (unpaged) `ListUploadParts` response delivered them; no
sorting by part number is performed anywhere on the path. -/
theorem append_parts_transport_order (env : Env) (key : String)
    (ups1 ups2 : List Upload) (m : Upload) (pr : ListPartsResult) (calls : List NetCall)
    (hl : listMultiGo env key "" = (.ok (ups1 ++ m :: ups2), calls))
    (h1 : ∀ u ∈ ups1, u.key ≠ key) (hm : m.key = key)
    (hp : env.listPartsRes m.uploadId = .ok pr) :
    writerAppendGo env key =
      (.ok (newWriterGo key ⟨m.key, m.uploadId⟩ pr.parts),
       calls ++ [NetCall.listParts m.uploadId]) ∧
    (newWriterGo key ⟨m.key, m.uploadId⟩ pr.parts).parts = pr.parts := by
  constructor
  · unfold writerAppendGo
    rw [hl]
    simp [writerAppendFind_first env key m pr hm hp ups1 h1 ups2]
  · rfl

/-- Witness for `append_parts_transport_order` on the out-of-order backend:
the writer's parts are `[part 2, part 1]`, identical to the transport's
response. -/
theorem append_parts_transport_order_witness :
    writerAppendGo envC7 "k" =
      (.ok (newWriterGo "k" ⟨"k", 7⟩ [⟨2, "e2", 10⟩, ⟨1, "e1", 10⟩]),
       [NetCall.listMulti ""] ++ [NetCall.listParts 7]) ∧
    (newWriterGo "k" ⟨"k", 7⟩ [⟨2, "e2", 10⟩, ⟨1, "e1", 10⟩]).parts =
      [⟨2, "e2", 10⟩, ⟨1, "e1", 10⟩] :=
  append_parts_transport_order envC7 "k" [] [] ⟨"k", 7⟩
    ⟨[⟨2, "e2", 10⟩, ⟨1, "e1", 10⟩]⟩ [NetCall.listMulti ""]
    (by decide) (by simp) rfl (by decide)

end Nos

namespace Nos

/-! ### Chunking abstraction for the call-boundary-independence proof

The loop of `Write` is simulated by a byte-at-a-time step function on the
triple (ready length, pending length, part sizes); part sizes depend only
on this triple because every upload succeeds under `partUploadOk`. -/

/-- Every part upload succeeds with a non-empty etag. -/
def partUploadOk (env : Env) : Prop :=
  ∀ (uid : Int) (pn : Nat) (c : List Nat),
    match env.uploadPartRes uid pn c with
    | .ok e => e ≠ ""
    | .error _ => False

/-- The etag the environment answers for a part upload (junk on error). -/
def etagOf (env : Env) (uid : Int) (pn : Nat) (c : List Nat) : String :=
  match env.uploadPartRes uid pn c with
  | .ok e => e
  | .error _ => ""

/-- Abstract effect of feeding one byte to the chunking loop: top up ready,
then pending; when pending reaches the chunk size, a part of ready's size
is flushed and the buffers shift. -/
def stepByte (C : Nat) (st : Nat × Nat × List Nat) (_b : Nat) : Nat × Nat × List Nat :=
  if st.1 < C then (st.1 + 1, st.2.1, st.2.2)
  else if st.2.1 + 1 < C then (st.1, st.2.1 + 1, st.2.2)
  else (C, 0, st.2.2 ++ [st.1])

/-- Abstract chunking state after feeding a byte string. -/
def chunkAbs (C : Nat) (st : Nat × Nat × List Nat) (p : List Nat) : Nat × Nat × List Nat :=
  p.foldl (stepByte C) st

/-- Feeding bytes that fit into ready only bumps the ready length. -/
theorem chunkAbs_fill_ready (C : Nat) :
    ∀ (p : List Nat) (r q : Nat) (s : List Nat), r + p.length ≤ C →
      chunkAbs C (r, q, s) p = (r + p.length, q, s) := by
  intro p
  induction p with
  | nil => intro r q s h; simp [chunkAbs]
  | cons b bs ih =>
    intro r q s h
    simp only [List.length_cons] at h
    have hr : r < C := by omega
    simp only [chunkAbs, List.foldl_cons]
    rw [show stepByte C (r, q, s) b = (r + 1, q, s) by simp [stepByte, hr]]
    have := ih (r + 1) q s (by omega)
    simp only [chunkAbs] at this
    rw [this]
    simp only [List.length_cons]
    congr 1
    omega

/-- With ready full, bytes that do not fill pending only bump its length. -/
theorem chunkAbs_fill_pending (C : Nat) :
    ∀ (p : List Nat) (r q : Nat) (s : List Nat), C ≤ r → q + p.length < C →
      chunkAbs C (r, q, s) p = (r, q + p.length, s) := by
  intro p
  induction p with
  | nil => intro r q s hr h; simp [chunkAbs]
  | cons b bs ih =>
    intro r q s hr h
    simp only [List.length_cons] at h
    simp only [chunkAbs, List.foldl_cons]
    rw [show stepByte C (r, q, s) b = (r, q + 1, s) by
      simp only [stepByte]
      rw [if_neg (by omega), if_pos (by omega)]]
    have := ih r (q + 1) s hr (by omega)
    simp only [chunkAbs] at this
    rw [this]
    simp only [List.length_cons]
    congr 2
    omega

/-- With ready full, bytes that exactly fill pending flush a part of
ready's size and shift the buffers. -/
theorem chunkAbs_fill_flush (C : Nat) :
    ∀ (p : List Nat) (r q : Nat) (s : List Nat), C ≤ r → p ≠ [] → q + p.length = C →
      chunkAbs C (r, q, s) p = (C, 0, s ++ [r]) := by
  intro p
  induction p with
  | nil => intro r q s hr h; exact absurd rfl h
  | cons b bs ih =>
    intro r q s hr _ h
    simp only [List.length_cons] at h
    cases hbs : bs with
    | nil =>
      subst hbs
      simp only [List.length_nil] at h
      simp only [chunkAbs, List.foldl_cons, List.foldl_nil]
      simp only [stepByte]
      rw [if_neg (by omega), if_neg (by omega)]
    | cons b2 bs2 =>
      have hne : bs ≠ [] := by rw [hbs]; simp
      have hlen : 1 ≤ bs.length := by rw [hbs]; simp
      rw [← hbs]
      simp only [chunkAbs, List.foldl_cons]
      rw [show stepByte C (r, q, s) b = (r, q + 1, s) by
        simp only [stepByte]
        rw [if_neg (by omega), if_pos (by omega)]]
      have := ih r (q + 1) s hr hne (by omega)
      simpa only [chunkAbs] using this

/-- `chunkAbs` distributes over append (`List.foldl_append`). -/
theorem chunkAbs_append (C : Nat) (st : Nat × Nat × List Nat) (a b : List Nat) :
    chunkAbs C st (a ++ b) = chunkAbs C (chunkAbs C st a) b := by
  simp [chunkAbs]

/-- `flushPart` with a full pending buffer and a succeeding upload: no
merge happens, ready (of its own length) is uploaded as the next part, and
the buffers shift. -/
theorem flushPartGo_full (env : Env) (cfg : DriverCfg) (uid : Int)
    (parts : List UploadPartRet) (ready pending : List Nat)
    (hup : partUploadOk env) (hC : 0 < cfg.chunkSize)
    (hq : pending.length = cfg.chunkSize) :
    flushPartGo env cfg uid parts ready pending =
      ⟨none, pending, [],
       parts ++ [⟨parts.length + 1, etagOf env uid (parts.length + 1) ready, ready.length⟩],
       [NetCall.uploadPart uid (parts.length + 1) ready]⟩ := by
  have hok := hup uid (parts.length + 1) ready
  unfold flushPartGo
  rw [if_neg (by intro hx; omega)]
  have hnm : ¬ pending.length < cfg.chunkSize := by omega
  simp only [hnm, if_false]
  unfold uploadPartGo etagOf
  cases henv : env.uploadPartRes uid (parts.length + 1) ready with
  | error e => rw [henv] at hok; exact absurd hok (by simp)
  | ok e =>
    rw [henv] at hok
    simp [hok]

end Nos

namespace Nos

/-- Simulation of the `Write` chunking loop by the byte-level abstraction:
under `partUploadOk` the loop always succeeds, consumes all input, keeps
pending strictly below and ready at most the chunk size, flushes only
chunk-size parts, and its buffer lengths and part sizes follow `chunkAbs`. -/
theorem writeLoop_sim (env : Env) (cfg : DriverCfg) (uid : Int)
    (hup : partUploadOk env) (hC : 0 < cfg.chunkSize) :
    ∀ (fuel : Nat) (p ready pending : List Nat) (parts : List UploadPartRet),
      p.length ≤ fuel →
      pending.length < cfg.chunkSize →
      ready.length ≤ cfg.chunkSize →
      ∃ r, writeLoop env cfg uid fuel p ready pending parts = some r ∧
        r.err = none ∧ r.n = p.length ∧
        r.pendingPart.length < cfg.chunkSize ∧
        r.readyPart.length ≤ cfg.chunkSize ∧
        (∀ x ∈ r.parts, x ∈ parts ∨ x.size = cfg.chunkSize) ∧
        (r.readyPart.length, r.pendingPart.length, r.parts.map (·.size)) =
          chunkAbs cfg.chunkSize (ready.length, pending.length, parts.map (·.size)) p := by
  intro fuel
  induction fuel with
  | zero =>
    intro p ready pending parts hf hq hr
    have hp : p = [] := List.eq_nil_of_length_eq_zero (Nat.le_zero.mp hf)
    subst hp
    exact ⟨_, rfl, rfl, rfl, hq, hr, fun x hx => Or.inl hx, by simp [chunkAbs]⟩
  | succ fuel ih =>
    intro p ready pending parts hf hq hr
    cases p with
    | nil => exact ⟨_, rfl, rfl, rfl, hq, hr, fun x hx => Or.inl hx, by simp [chunkAbs]⟩
    | cons b bs =>
      simp only [List.length_cons] at hf
      have hP' : 0 < cfg.chunkSize - pending.length := by omega
      by_cases hA : 0 < cfg.chunkSize - ready.length
      · by_cases hA1 : cfg.chunkSize - ready.length ≤ (b :: bs).length
        · -- ready is filled to the chunk size
          have hA1n : cfg.chunkSize - ready.length ≤ bs.length + 1 := by
            simpa using hA1
          have hready1 : (ready ++ (b :: bs).take (cfg.chunkSize - ready.length)).length =
              cfg.chunkSize := by
            simp only [List.length_append, List.length_take, List.length_cons]
            omega
          by_cases hA1a : cfg.chunkSize - pending.length ≤
              ((b :: bs).drop (cfg.chunkSize - ready.length)).length
          · -- pending is also filled: flush, then recurse
            have hA1an : cfg.chunkSize - pending.length ≤
                bs.length + 1 - (cfg.chunkSize - ready.length) := by
              simpa using hA1a
            have hplen : (pending ++ ((b :: bs).drop (cfg.chunkSize - ready.length)).take
                (cfg.chunkSize - pending.length)).length = cfg.chunkSize := by
              simp only [List.length_append, List.length_take, List.length_drop,
                List.length_cons]
              omega
            obtain ⟨r, hrec, herr, hn, hq', hr', hmem, habs⟩ :=
              ih (((b :: bs).drop (cfg.chunkSize - ready.length)).drop
                    (cfg.chunkSize - pending.length))
                (pending ++ ((b :: bs).drop (cfg.chunkSize - ready.length)).take
                    (cfg.chunkSize - pending.length))
                []
                (parts ++ [⟨parts.length + 1,
                  etagOf env uid (parts.length + 1)
                    (ready ++ (b :: bs).take (cfg.chunkSize - ready.length)),
                  (ready ++ (b :: bs).take (cfg.chunkSize - ready.length)).length⟩])
                (by simp only [List.length_drop, List.length_cons]; omega)
                (by simpa using hC)
                (le_of_eq hplen)
            have hflush := flushPartGo_full env cfg uid parts
              (ready ++ (b :: bs).take (cfg.chunkSize - ready.length))
              (pending ++ ((b :: bs).drop (cfg.chunkSize - ready.length)).take
                  (cfg.chunkSize - pending.length))
              hup hC hplen
            have heq : writeLoop env cfg uid (fuel + 1) (b :: bs) ready pending parts =
                some ⟨r.readyPart, r.pendingPart, r.parts,
                  cfg.chunkSize - ready.length + (cfg.chunkSize - pending.length) + r.n,
                  [NetCall.uploadPart uid (parts.length + 1)
                    (ready ++ (b :: bs).take (cfg.chunkSize - ready.length))] ++ r.calls,
                  r.err⟩ := by
              simp only [writeLoop, hA, hA1, hP', hA1a, if_true, if_false, hflush, hrec]
            refine ⟨_, heq, herr, ?_, hq', hr', ?_, ?_⟩
            · show cfg.chunkSize - ready.length + (cfg.chunkSize - pending.length) + r.n =
                (b :: bs).length
              rw [hn]
              simp only [List.length_drop, List.length_cons]
              omega
            · intro x hx
              rcases hmem x hx with hx1 | hx2
              · rcases List.mem_append.mp hx1 with hx3 | hx4
                · exact Or.inl hx3
                · simp only [List.mem_singleton] at hx4
                  subst hx4
                  exact Or.inr hready1
              · exact Or.inr hx2
            · show (r.readyPart.length, r.pendingPart.length, r.parts.map (·.size)) =
                chunkAbs cfg.chunkSize (ready.length, pending.length, parts.map (·.size))
                  (b :: bs)
              have hsz : (parts ++ [(⟨parts.length + 1,
                  etagOf env uid (parts.length + 1)
                    (ready ++ (b :: bs).take (cfg.chunkSize - ready.length)),
                  (ready ++ (b :: bs).take (cfg.chunkSize - ready.length)).length⟩ :
                    UploadPartRet)]).map (·.size) =
                  parts.map (·.size) ++ [cfg.chunkSize] := by
                simp [hready1]
              rw [hplen] at habs
              simp only [List.length_nil] at habs
              rw [hsz] at habs
              rw [habs]
              have hsplit : (b :: bs) =
                  (b :: bs).take (cfg.chunkSize - ready.length) ++
                    (((b :: bs).drop (cfg.chunkSize - ready.length)).take
                        (cfg.chunkSize - pending.length) ++
                      ((b :: bs).drop (cfg.chunkSize - ready.length)).drop
                        (cfg.chunkSize - pending.length)) := by
                rw [List.take_append_drop, List.take_append_drop]
              conv_rhs => rw [hsplit]
              rw [chunkAbs_append, chunkAbs_append]
              rw [chunkAbs_fill_ready cfg.chunkSize
                ((b :: bs).take (cfg.chunkSize - ready.length)) ready.length
                pending.length (parts.map (·.size))
                (by simp only [List.length_take, List.length_cons]; omega)]
              rw [show ready.length +
                  ((b :: bs).take (cfg.chunkSize - ready.length)).length = cfg.chunkSize
                from by simp only [List.length_take, List.length_cons]; omega]
              rw [chunkAbs_fill_flush cfg.chunkSize
                (((b :: bs).drop (cfg.chunkSize - ready.length)).take
                  (cfg.chunkSize - pending.length)) cfg.chunkSize pending.length
                (parts.map (·.size)) (le_refl _)
                (by
                  apply List.ne_nil_of_length_pos
                  simp only [List.length_take, List.length_drop, List.length_cons]
                  omega)
                (by
                  simp only [List.length_take, List.length_drop, List.length_cons]
                  omega)]
          · -- input exhausted while filling pending
            have hA1an : bs.length + 1 - (cfg.chunkSize - ready.length) <
                cfg.chunkSize - pending.length := by
              simp only [List.length_drop, List.length_cons] at hA1a
              omega
            refine ⟨⟨ready ++ (b :: bs).take (cfg.chunkSize - ready.length),
                pending ++ (b :: bs).drop (cfg.chunkSize - ready.length), parts,
                cfg.chunkSize - ready.length +
                  ((b :: bs).drop (cfg.chunkSize - ready.length)).length + 0,
                [], none⟩, ?_, rfl, ?_, ?_, le_of_eq hready1, fun x hx => Or.inl hx, ?_⟩
            · simp only [writeLoop, hA, hA1, hP', hA1a, if_true, if_false]
            · simp only [List.length_drop, List.length_cons]
              omega
            · simp only [List.length_append, List.length_drop, List.length_cons]
              omega
            · have hsplit : (b :: bs) =
                  (b :: bs).take (cfg.chunkSize - ready.length) ++
                    (b :: bs).drop (cfg.chunkSize - ready.length) := by
                rw [List.take_append_drop]
              conv_rhs => rw [hsplit]
              rw [chunkAbs_append]
              rw [chunkAbs_fill_ready cfg.chunkSize
                ((b :: bs).take (cfg.chunkSize - ready.length)) ready.length
                pending.length (parts.map (·.size))
                (by simp only [List.length_take, List.length_cons]; omega)]
              rw [show ready.length +
                  ((b :: bs).take (cfg.chunkSize - ready.length)).length = cfg.chunkSize
                from by simp only [List.length_take, List.length_cons]; omega]
              rw [chunkAbs_fill_pending cfg.chunkSize
                ((b :: bs).drop (cfg.chunkSize - ready.length)) cfg.chunkSize
                pending.length (parts.map (·.size)) (le_refl _)
                (by simp only [List.length_drop, List.length_cons]; omega)]
              simp only [Prod.mk.injEq, List.length_append, List.length_take,
                List.length_cons, eq_self_iff_true, and_true, true_and]
              omega
        · -- input exhausted while filling ready
          have hA1n : bs.length + 1 < cfg.chunkSize - ready.length := by
            simp only [List.length_cons] at hA1
            omega
          refine ⟨⟨ready ++ b :: bs, pending ++ [], parts,
              (b :: bs).length + ([] : List Nat).length + 0, [], none⟩,
              ?_, rfl, by simp, ?_, ?_, fun x hx => Or.inl hx, ?_⟩
          · simp only [writeLoop, hA, hA1, hP', if_true, if_false]
            rw [if_neg (by
              simp only [List.length_nil]
              omega)]
          · simpa using hq
          · simp only [List.length_append, List.length_cons]
            omega
          · rw [chunkAbs_fill_ready cfg.chunkSize (b :: bs) ready.length
              pending.length (parts.map (·.size))
              (by simp only [List.length_cons]; omega)]
            simp
      · -- ready already full
        have hB : ready.length = cfg.chunkSize := by omega
        by_cases hB1 : cfg.chunkSize - pending.length ≤ (b :: bs).length
        · -- pending fills: flush, then recurse
          have hB1n : cfg.chunkSize - pending.length ≤ bs.length + 1 := by
            simpa using hB1
          have hplen : (pending ++ (b :: bs).take (cfg.chunkSize - pending.length)).length =
              cfg.chunkSize := by
            simp only [List.length_append, List.length_take, List.length_cons]
            omega
          obtain ⟨r, hrec, herr, hn, hq', hr', hmem, habs⟩ :=
            ih ((b :: bs).drop (cfg.chunkSize - pending.length))
              (pending ++ (b :: bs).take (cfg.chunkSize - pending.length))
              []
              (parts ++ [⟨parts.length + 1,
                etagOf env uid (parts.length + 1) ready, ready.length⟩])
              (by simp only [List.length_drop, List.length_cons]; omega)
              (by simpa using hC)
              (le_of_eq hplen)
          have hflush := flushPartGo_full env cfg uid parts ready
            (pending ++ (b :: bs).take (cfg.chunkSize - pending.length))
            hup hC hplen
          have heq : writeLoop env cfg uid (fuel + 1) (b :: bs) ready pending parts =
              some ⟨r.readyPart, r.pendingPart, r.parts,
                0 + (cfg.chunkSize - pending.length) + r.n,
                [NetCall.uploadPart uid (parts.length + 1) ready] ++ r.calls,
                r.err⟩ := by
            simp only [writeLoop, hA, hP', hB1, if_true, if_false, hflush, hrec]
          refine ⟨_, heq, herr, ?_, hq', hr', ?_, ?_⟩
          · show 0 + (cfg.chunkSize - pending.length) + r.n = (b :: bs).length
            rw [hn]
            simp only [List.length_drop, List.length_cons]
            omega
          · intro x hx
            rcases hmem x hx with hx1 | hx2
            · rcases List.mem_append.mp hx1 with hx3 | hx4
              · exact Or.inl hx3
              · simp only [List.mem_singleton] at hx4
                subst hx4
                exact Or.inr hB
            · exact Or.inr hx2
          · show (r.readyPart.length, r.pendingPart.length, r.parts.map (·.size)) =
              chunkAbs cfg.chunkSize (ready.length, pending.length, parts.map (·.size))
                (b :: bs)
            have hsz : (parts ++ [(⟨parts.length + 1,
                etagOf env uid (parts.length + 1) ready, ready.length⟩ :
                  UploadPartRet)]).map (·.size) =
                parts.map (·.size) ++ [ready.length] := by
              simp
            rw [hplen] at habs
            simp only [List.length_nil] at habs
            rw [hsz] at habs
            rw [habs]
            have hsplit : (b :: bs) =
                (b :: bs).take (cfg.chunkSize - pending.length) ++
                  (b :: bs).drop (cfg.chunkSize - pending.length) := by
              rw [List.take_append_drop]
            conv_rhs => rw [hsplit]
            rw [chunkAbs_append]
            rw [chunkAbs_fill_flush cfg.chunkSize
              ((b :: bs).take (cfg.chunkSize - pending.length)) ready.length
              pending.length (parts.map (·.size)) (le_of_eq hB.symm)
              (by
                apply List.ne_nil_of_length_pos
                simp only [List.length_take, List.length_cons]
                omega)
              (by
                simp only [List.length_take, List.length_cons]
                omega)]
        · -- input too short to fill pending: buffered whole
          have hB1n : bs.length + 1 < cfg.chunkSize - pending.length := by
            simp only [List.length_cons] at hB1
            omega
          refine ⟨⟨ready, pending ++ b :: bs, parts, 0 + (b :: bs).length + 0, [], none⟩,
              ?_, rfl, by simp, ?_, hr, fun x hx => Or.inl hx, ?_⟩
          · simp only [writeLoop, hA, hP', hB1, if_true, if_false]
          · simp only [List.length_append, List.length_cons]
            omega
          · rw [chunkAbs_fill_pending cfg.chunkSize (b :: bs) ready.length
              pending.length (parts.map (·.size)) (le_of_eq hB.symm)
              (by simp only [List.length_cons]; omega)]
            simp

end Nos

namespace Nos

/-- When every known part meets the size floor, the repair is a no-op. -/
theorem repairGo_noop (env : Env) (cfg : DriverCfg) (w : Writer)
    (h : ∀ x ∈ w.parts, cfg.minChunkSize ≤ x.size) :
    repairGo env cfg w = ⟨none, w, []⟩ := by
  unfold repairGo
  cases hl : w.parts.getLast? with
  | none => rfl
  | some last =>
    have hx : last ∈ w.parts.getLast? := Option.mem_def.mpr hl
    obtain ⟨hne, hlast⟩ := List.mem_getLast?_eq_getLast hx
    have hmem : last ∈ w.parts := hlast ▸ List.getLast_mem hne
    have hsz : ¬ last.size < cfg.minChunkSize := by
      have := h last hmem
      omega
    simp only [hsz, if_false]

/-- `flushPart` with an under-full pending buffer and a succeeding upload:
pending is merged into ready and the merged buffer is uploaded whole. -/
theorem flushPartGo_merge (env : Env) (cfg : DriverCfg) (uid : Int)
    (parts : List UploadPartRet) (ready pending : List Nat)
    (hup : partUploadOk env) (hq : pending.length < cfg.chunkSize)
    (hne : ¬(ready.length = 0 ∧ pending.length = 0)) :
    flushPartGo env cfg uid parts ready pending =
      ⟨none, [], [],
       parts ++ [⟨parts.length + 1, etagOf env uid (parts.length + 1) (ready ++ pending),
                  (ready ++ pending).length⟩],
       [NetCall.uploadPart uid (parts.length + 1) (ready ++ pending)]⟩ := by
  have hok := hup uid (parts.length + 1) (ready ++ pending)
  unfold flushPartGo
  rw [if_neg hne]
  simp only [hq, if_true]
  unfold uploadPartGo etagOf
  cases henv : env.uploadPartRes uid (parts.length + 1) (ready ++ pending) with
  | error e => rw [henv] at hok; exact absurd hok (by simp)
  | ok e =>
    rw [henv] at hok
    simp [hok]

/-- Invariant maintained across `Write` calls on a fresh (non-resumed)
session: the writer is open, pending is strictly below and ready at most
the chunk size, and every flushed part has exactly the chunk size. -/
def writerChunkINV (cfg : DriverCfg) (w : Writer) : Prop :=
  w.closed = false ∧ w.committed = false ∧ w.cancelled = false ∧
  w.pendingPart.length < cfg.chunkSize ∧
  w.readyPart.length ≤ cfg.chunkSize ∧
  (∀ x ∈ w.parts, x.size = cfg.chunkSize)

/-- One `Write` call on an invariant state: it succeeds, consumes all input
and transforms the buffer lengths and part sizes by `chunkAbs`. -/
theorem writeGo_sim (env : Env) (cfg : DriverCfg) (w : Writer) (p : List Nat)
    (hup : partUploadOk env) (hC : 0 < cfg.chunkSize)
    (hmin : cfg.minChunkSize ≤ cfg.chunkSize) (hinv : writerChunkINV cfg w) :
    ∃ out, writeGo env cfg w p = some out ∧ out.err = none ∧ out.n = p.length ∧
      writerChunkINV cfg out.w ∧
      (out.w.readyPart.length, out.w.pendingPart.length, out.w.parts.map (·.size)) =
        chunkAbs cfg.chunkSize
          (w.readyPart.length, w.pendingPart.length, w.parts.map (·.size)) p := by
  obtain ⟨hcl, hcm, hca, hq, hr, hparts⟩ := hinv
  obtain ⟨r, hrec, herr, hn, hq', hr', hmem, habs⟩ :=
    writeLoop_sim env cfg w.multi.uploadId hup hC p.length p
      w.readyPart w.pendingPart w.parts (le_refl _) hq hr
  have hnoop := repairGo_noop env cfg w (fun x hx => (hparts x hx) ▸ hmin)
  have heq : writeGo env cfg w p =
      some ⟨r.n, r.err,
        { w with readyPart := r.readyPart, pendingPart := r.pendingPart,
                 parts := r.parts, size := w.size + r.n }, [] ++ r.calls⟩ := by
    simp only [writeGo, hcl, hcm, hca, Bool.false_eq_true, if_false, hnoop, hrec]
  refine ⟨_, heq, herr, hn, ⟨hcl, hcm, hca, hq', hr', ?_⟩, habs⟩
  intro x hx
  rcases hmem x hx with hx1 | hx2
  · exact hparts x hx1
  · exact hx2

/-- A sequence of `Write` calls behaves like one pass of `chunkAbs` over
the concatenation of all their inputs. -/
theorem writeSeq_sim (env : Env) (cfg : DriverCfg)
    (hup : partUploadOk env) (hC : 0 < cfg.chunkSize)
    (hmin : cfg.minChunkSize ≤ cfg.chunkSize) :
    ∀ (ps : List (List Nat)) (w : Writer), writerChunkINV cfg w →
      ∃ ns w', writeSeq env cfg w ps = some (ns, w') ∧ writerChunkINV cfg w' ∧
        (w'.readyPart.length, w'.pendingPart.length, w'.parts.map (·.size)) =
          chunkAbs cfg.chunkSize
            (w.readyPart.length, w.pendingPart.length, w.parts.map (·.size))
            ps.flatten := by
  intro ps
  induction ps with
  | nil =>
    intro w hinv
    exact ⟨[], w, rfl, hinv, by simp [chunkAbs]⟩
  | cons p ps ih =>
    intro w hinv
    obtain ⟨out, hw, herr, hn, hinv1, habs1⟩ := writeGo_sim env cfg w p hup hC hmin hinv
    obtain ⟨ns, w', hseq, hinv2, habs2⟩ := ih out.w hinv1
    refine ⟨out.n :: ns, w', ?_, hinv2, ?_⟩
    · simp only [writeSeq, hw, hseq]
    · rw [habs2, habs1]
      rw [List.flatten_cons, chunkAbs_append]

/-- The part sizes after `Commit` are the flushed sizes plus one final
merged part when the buffers are non-empty. -/
theorem commitGo_partSizes (env : Env) (cfg : DriverCfg) (w : Writer)
    (hup : partUploadOk env)
    (h1 : w.closed = false) (h2 : w.committed = false) (h3 : w.cancelled = false)
    (hq : w.pendingPart.length < cfg.chunkSize) :
    (commitGo env cfg w).w.parts.map (·.size) =
      (if w.readyPart.length = 0 ∧ w.pendingPart.length = 0 then w.parts.map (·.size)
       else w.parts.map (·.size) ++ [w.readyPart.length + w.pendingPart.length]) := by
  by_cases hz : w.readyPart.length = 0 ∧ w.pendingPart.length = 0
  · have hfl : flushPartGo env cfg w.multi.uploadId w.parts w.readyPart w.pendingPart =
        ⟨none, w.readyPart, w.pendingPart, w.parts, []⟩ := by
      unfold flushPartGo
      rw [if_pos hz]
    rw [if_pos hz]
    simp only [commitGo, h1, h2, h3, Bool.false_eq_true, if_false, hfl]
    cases env.completeRes w.multi.uploadId (TranslateToUploadParts w.parts) with
    | error e => simp
    | ok a => simp
  · have hfl := flushPartGo_merge env cfg w.multi.uploadId w.parts w.readyPart
      w.pendingPart hup hq hz
    rw [if_neg hz]
    simp only [commitGo, h1, h2, h3, Bool.false_eq_true, if_false, hfl]
    cases env.completeRes w.multi.uploadId (TranslateToUploadParts (w.parts ++
        [⟨w.parts.length + 1,
          etagOf env w.multi.uploadId (w.parts.length + 1) (w.readyPart ++ w.pendingPart),
          (w.readyPart ++ w.pendingPart).length⟩])) with
    | error e => simp
    | ok a => simp

/-- C3: chunking is call-boundary-independent. -/
theorem chunking_call_boundary_independent (env : Env) (cfg : DriverCfg)
    (key : String) (uploadId : Int)
    (hup : partUploadOk env) (hC : 0 < cfg.chunkSize)
    (hmin : cfg.minChunkSize ≤ cfg.chunkSize) (ps : List (List Nat)) :
    commitSizesAfter env cfg key uploadId ps =
      commitSizesAfter env cfg key uploadId [ps.flatten] := by
  have hinv0 : writerChunkINV cfg (newWriterGo key ⟨key, uploadId⟩ []) :=
    ⟨rfl, rfl, rfl, by simpa [newWriterGo] using hC, by simp [newWriterGo],
     by simp [newWriterGo]⟩
  obtain ⟨ns1, w1, hseq1, hinv1, habs1⟩ :=
    writeSeq_sim env cfg hup hC hmin ps (newWriterGo key ⟨key, uploadId⟩ []) hinv0
  obtain ⟨ns2, w2, hseq2, hinv2, habs2⟩ :=
    writeSeq_sim env cfg hup hC hmin [ps.flatten] (newWriterGo key ⟨key, uploadId⟩ []) hinv0
  have htriple : (w1.readyPart.length, w1.pendingPart.length, w1.parts.map (·.size)) =
      (w2.readyPart.length, w2.pendingPart.length, w2.parts.map (·.size)) := by
    rw [habs1, habs2]
    simp
  have hr12 : w1.readyPart.length = w2.readyPart.length := congrArg Prod.fst htriple
  have hq12 : w1.pendingPart.length = w2.pendingPart.length := by
    have := congrArg Prod.snd htriple
    exact congrArg Prod.fst this
  have hs12 : w1.parts.map (·.size) = w2.parts.map (·.size) := by
    have := congrArg Prod.snd htriple
    exact congrArg Prod.snd this
  have hc1 : commitSizesAfter env cfg key uploadId ps =
      some ((commitGo env cfg w1).w.parts.map (·.size)) := by
    unfold commitSizesAfter
    rw [hseq1]
  have hc2 : commitSizesAfter env cfg key uploadId [ps.flatten] =
      some ((commitGo env cfg w2).w.parts.map (·.size)) := by
    unfold commitSizesAfter
    rw [hseq2]
  obtain ⟨hcl1, hcm1, hca1, hq1, _, _⟩ := hinv1
  obtain ⟨hcl2, hcm2, hca2, hq2, _, _⟩ := hinv2
  rw [hc1, hc2,
      commitGo_partSizes env cfg w1 hup hcl1 hcm1 hca1 hq1,
      commitGo_partSizes env cfg w2 hup hcl2 hcm2 hca2 hq2]
  rw [hr12, hq12, hs12]

/-- Witness for `chunking_call_boundary_independent`: chunk size 3, the
split `[[1], [2, 3, 4]]` against the single write `[1, 2, 3, 4]`. -/
theorem chunking_call_boundary_independent_witness :
    commitSizesAfter envOk ⟨3, 2⟩ "k" 1 [[1], [2, 3, 4]] =
      commitSizesAfter envOk ⟨3, 2⟩ "k" 1 [([[1], [2, 3, 4]] : List (List Nat)).flatten] :=
  chunking_call_boundary_independent envOk ⟨3, 2⟩ "k" 1
    (by intro uid pn c; show "e" ≠ ""; decide) (by decide) (by decide) [[1], [2, 3, 4]]

end Nos
